import Mathlib

/-
Verification development for the release-notes engine in src/lib.rs.

Strings are modelled as `List Char` (`Str`).  Rust's `to_lowercase`, `trim`
and `char::is_whitespace` are modelled on their ASCII fragment (all pattern
literals involved are ASCII).  Rust's `u64`/`u32` `parse` is modelled with an
explicit bound; regexes are modelled by hand-rolled scanners implementing the
leftmost-match semantics of the `regex` crate for the concrete patterns that
occur in the source.  The `HashMap` of `consolidate_dependabot_updates` is
modelled as an association list in insertion order (the source's iteration
order over the `HashMap` is unspecified; no claim depends on the relative
order of distinct package lines).
-/

namespace GRN

abbrev Str := List Char

def toLowerL (s : Str) : Str := s.map Char.toLower

/-- ASCII fragment of Rust `char::is_whitespace`. -/
def isWs (c : Char) : Bool :=
  c = ' ' || c = '\t' || c = '\n' || c = '\x0b' || c = '\x0c' || c = '\r'

def trimStartL (s : Str) : Str := s.dropWhile isWs

def trimL (s : Str) : Str := ((s.dropWhile isWs).reverse.dropWhile isWs).reverse

def startsWithL (s pre : Str) : Bool :=
  match pre, s with
  | [], _ => true
  | _ :: _, [] => false
  | p :: ps, c :: cs => c = p && startsWithL cs ps

/-- Rust `str::contains` for a literal needle. -/
def containsSub (hay needle : Str) : Bool :=
  match hay with
  | [] => startsWithL [] needle
  | _ :: rest => startsWithL hay needle || containsSub rest needle

/-- Strip a literal prefix, returning the remainder on success. -/
def stripPre (pre s : Str) : Option Str :=
  match pre, s with
  | [], _ => some s
  | _ :: _, [] => none
  | p :: ps, c :: cs => if c = p then stripPre ps cs else none

def digitsVal (ds : Str) : Nat :=
  ds.foldl (fun a c => a * 10 + (c.toNat - 48)) 0

/-- Decimal rendering of a `Nat`, as in Rust's `format!` of an unsigned int. -/
def natStr (n : Nat) : Str := (Nat.repr n).data

/-- The rendered `#N` fragment. -/
def hashTok (n : Nat) : Str := '#' :: natStr n

/-- The rendered ` (#N)` token appended by the classifier. -/
def prTok (n : Nat) : Str := ' ' :: '(' :: hashTok n ++ [')']

/-- Rust unsigned-integer `parse` with bound 2^w: optional leading '+', then
one or more ASCII digits, nothing else, value below the bound. -/
def parseRustNat (bound : Nat) (s : Str) : Option Nat :=
  let t := if s.head? = some '+' then s.tail else s
  if t ≠ [] ∧ t.all Char.isDigit then
    if digitsVal t < bound then some (digitsVal t) else none
  else none

def parseRustU64 (s : Str) : Option Nat := parseRustNat (2 ^ 64) s

def parseRustU32 (s : Str) : Option Nat := parseRustNat (2 ^ 32) s

/-- Match the regex `\(#([0-9]+)\)` at the start of `s`; returns the captured
digit run and the remainder after the closing parenthesis. -/
def matchPrAt (s : Str) : Option (Str × Str) :=
  match stripPre (['(', '#']) s with
  | none => none
  | some r =>
    let ds := r.takeWhile Char.isDigit
    if ds = [] then none
    else
      match r.drop ds.length with
      | ')' :: rest => some (ds, rest)
      | _ => none

/-- Leftmost capture of `\(#([0-9]+)\)` (the source's `re_pr_number` and
`re_fallback`). -/
def findPrDigits : Str → Option Str
  | [] => none
  | c :: rest =>
    match matchPrAt (c :: rest) with
    | some (ds, _) => some ds
    | none => findPrDigits rest

/-- Match the regex ` \(#[0-9]+\)` (the source's `re_pr_remove`) at the start
of `s`; returns the remainder after the token. -/
def matchSpacePrAt (s : Str) : Option Str :=
  match s with
  | ' ' :: rest => (matchPrAt rest).map (fun p => p.2)
  | _ => none

def stripAllPrFuel : Nat → Str → Str
  | 0, s => s
  | _ + 1, [] => []
  | fuel + 1, c :: rest =>
    match matchSpacePrAt (c :: rest) with
    | some rem => stripAllPrFuel fuel rem
    | none => c :: stripAllPrFuel fuel rest

/-- Rust `re_pr_remove.replace_all(subject, "")`: delete every non-overlapping
leftmost-first occurrence of ` \(#[0-9]+\)`. -/
def stripAllPr (s : Str) : Str := stripAllPrFuel s.length s

/-- Leftmost capture of `Merge pull request #([0-9]+)`. -/
def findMergeDigits : Str → Option Str
  | [] => none
  | c :: rest =>
    match stripPre (("Merge pull request #").toList) (c :: rest) with
    | some r =>
      let ds := r.takeWhile Char.isDigit
      if ds = [] then findMergeDigits rest else some ds
    | none => findMergeDigits rest

/-- Last occurrence of `\(#([0-9]+)\) \(` in `s` (the greedy `.*` in
`re_bump` makes the capture come from the rightmost such occurrence). -/
def lastPrSpaceParen : Str → Option Str
  | [] => none
  | c :: rest =>
    match lastPrSpaceParen rest with
    | some ds => some ds
    | none =>
      match matchPrAt (c :: rest) with
      | some (ds, rem) =>
        match rem with
        | ' ' :: '(' :: _ => some ds
        | _ => none
      | none => none

/-- Capture of `Bump the.*\(#([0-9]+)\) \(` (the source's `re_bump`): the
leftmost `Bump the` that is followed, within its line (`.` does not match a
newline), by a `\(#d+\) \(` token; the greedy `.*` selects the last such
token. -/
def findBumpDigits : Str → Option Str
  | [] => none
  | c :: rest =>
    match stripPre (("Bump the").toList) (c :: rest) with
    | some r =>
      match lastPrSpaceParen (r.takeWhile (fun x => x ≠ '\n')) with
      | some ds => some ds
      | none => findBumpDigits rest
    | none => findBumpDigits rest

/-- Maximal nonempty run of characters satisfying `p` (a regex `[^X]+`
group); returns the run and the remainder. -/
def grabRun (p : Char → Bool) (s : Str) : Option (Str × Str) :=
  let t := s.takeWhile p
  if t = [] then none else some (t, s.drop t.length)

/-- Deterministic match of ``Updates `([^`]+)` from ([^ ]+) to ([^ ]+)`` at
the start of `s` (the trailing optional `(?: \((#[0-9]+)\))?` group of the
source's `re_update` cannot influence the match or the first three captures,
and its capture is never read by the source). -/
def matchUpdatesAt (s : Str) : Option (Str × Str × Str) :=
  match stripPre (("Updates `").toList) s with
  | none => none
  | some r =>
    match grabRun (fun c => c ≠ '`') r with
    | none => none
    | some (pkg, r1) =>
      match r1 with
      | '`' :: r2 =>
        match stripPre ((" from ").toList) r2 with
        | none => none
        | some r3 =>
          match grabRun (fun c => c ≠ ' ') r3 with
          | none => none
          | some (frv, r4) =>
            match stripPre ((" to ").toList) r4 with
            | none => none
            | some r5 =>
              match grabRun (fun c => c ≠ ' ') r5 with
              | none => none
              | some (tov, _) => some (pkg, frv, tov)
      | _ => none

/-- Consume `Bumps?`: the literal `Bump` and then an optional `s`.  The next
pattern character is always a space, so the optional `s` is taken exactly
when present. -/
def stripBumps (s : Str) : Option Str :=
  match stripPre (("Bump").toList) s with
  | none => none
  | some r =>
    match r with
    | 's' :: r1 => some r1
    | _ => some r

/-- Deterministic match of
`Bumps? \[([^\]]+)\]\([^\)]+\) from ([^ ]+) to ([^ ]+)` at the start of `s`
(source's `re_bump_link`; the trailing optional PR group is again inert). -/
def matchBumpLinkAt (s : Str) : Option (Str × Str × Str) :=
  match stripBumps s with
  | none => none
  | some r =>
    match stripPre ((" [").toList) r with
    | none => none
    | some r1 =>
      match grabRun (fun c => c ≠ ']') r1 with
      | none => none
      | some (pkg, r2) =>
        match r2 with
        | ']' :: '(' :: r3 =>
          match grabRun (fun c => c ≠ ')') r3 with
          | none => none
          | some (_, r4) =>
            match r4 with
            | ')' :: r5 =>
              match stripPre ((" from ").toList) r5 with
              | none => none
              | some r6 =>
                match grabRun (fun c => c ≠ ' ') r6 with
                | none => none
                | some (frv, r7) =>
                  match stripPre ((" to ").toList) r7 with
                  | none => none
                  | some r8 =>
                    match grabRun (fun c => c ≠ ' ') r8 with
                    | none => none
                    | some (tov, _) => some (pkg, frv, tov)
            | _ => none
        | _ => none

/-- Deterministic match of `Bumps? ([^ ]+) from ([^ ]+) to ([^ ]+)` at the
start of `s` (source's `re_bump_simple`; trailing optional PR group inert). -/
def matchBumpSimpleAt (s : Str) : Option (Str × Str × Str) :=
  match stripBumps s with
  | none => none
  | some r =>
    match r with
    | ' ' :: r1 =>
      match grabRun (fun c => c ≠ ' ') r1 with
      | none => none
      | some (pkg, r2) =>
        match stripPre ((" from ").toList) r2 with
        | none => none
        | some r3 =>
          match grabRun (fun c => c ≠ ' ') r3 with
          | none => none
          | some (frv, r4) =>
            match stripPre ((" to ").toList) r4 with
            | none => none
            | some r5 =>
              match grabRun (fun c => c ≠ ' ') r5 with
              | none => none
              | some (tov, _) => some (pkg, frv, tov)
    | _ => none

/-- Leftmost-match scan: try the position matcher at every start position,
left to right, as the `regex` crate's `captures` does. -/
def scanFirst (m : Str → Option α) : Str → Option α
  | [] => m []
  | c :: rest =>
    match m (c :: rest) with
    | some r => some r
    | none => scanFirst m rest

def findUpdatesPat (s : Str) : Option (Str × Str × Str) := scanFirst matchUpdatesAt s

def findBumpLinkPat (s : Str) : Option (Str × Str × Str) := scanFirst matchBumpLinkAt s

def findBumpSimplePat (s : Str) : Option (Str × Str × Str) := scanFirst matchBumpSimpleAt s

/-- The three-way pattern cascade of `consolidate_dependabot_updates`:
`re_update`, then `re_bump_link`, then `re_bump_simple`. -/
def parseUpdateLine (line : Str) : Option (Str × Str × Str) :=
  match findUpdatesPat line with
  | some r => some r
  | none =>
    match findBumpLinkPat line with
    | some r => some r
    | none => findBumpSimplePat line

/-- PR number extracted from a consolidation input line: the leftmost
`\(#([0-9]+)\)` capture, parsed as `u64`. -/
def linePrNumber (line : Str) : Option Nat :=
  match findPrDigits line with
  | some ds => parseRustU64 ds
  | none => none

/-- One consolidation entry: `(fromVersion, toVersion, prNumbers)`. -/
abbrev ConsEntry := Str × Str × List Nat

/-- The `package → entry` map, kept in insertion order. -/
abbrev ConsMap := List (Str × ConsEntry)

def lookupPkg : ConsMap → Str → Option ConsEntry
  | [], _ => none
  | (k, v) :: rest, pkg => if k = pkg then some v else lookupPkg rest pkg

def updatePkg : ConsMap → Str → ConsEntry → ConsMap
  | [], _, _ => []
  | (k, v) :: rest, pkg, e => if k = pkg then (k, e) :: rest else (k, v) :: updatePkg rest pkg e

/-- Merging one parsed fact `(frv, tov, prn)` into an existing entry
`(ef, et, prs)`: extend the range downward when `tov = ef`, else upward when
`frv = et`, else leave it; add the PR number when present and new. -/
def consMerge (ef et : Str) (prs : List Nat) (frv tov : Str) (prn : Option Nat) : ConsEntry :=
  let nft := if tov = ef then (frv, et) else if frv = et then (ef, tov) else (ef, et)
  let prs1 := match prn with
    | some p => if prs.contains p then prs else prs ++ [p]
    | none => prs
  (nft.1, nft.2, prs1)

/-- Loop body of `consolidate_dependabot_updates`: state is the package map
plus the passthrough list of unparsed lines. -/
def consStep (st : ConsMap × List Str) (line : Str) : ConsMap × List Str :=
  let prn := linePrNumber line
  match parseUpdateLine line with
  | some (pkg, frv, tov) =>
    match lookupPkg st.1 pkg with
    | some (ef, et, prs) => (updatePkg st.1 pkg (consMerge ef et prs frv tov prn), st.2)
    | none => (st.1 ++ [(pkg, (frv, tov, prn.toList))], st.2)
  | none => (st.1, st.2 ++ [line])

def consFold (updates : List Str) : ConsMap × List Str :=
  updates.foldl consStep ([], [])

/-- The rendered PR suffix: `"  ({#a, #b, ...})"` with the numbers sorted
descending (ascending sort then reverse, as in the source), or empty. -/
def prSuffix (prs : List Nat) : Str :=
  if prs = [] then []
  else
    ("  (").toList ++
      (", ").toList.intercalate
        (((List.insertionSort (fun x y : Nat => x ≤ y) prs).reverse).map
          (fun n => '#' :: natStr n)) ++ [')']

def renderEntry (e : Str × ConsEntry) : Str :=
  ("- Updates `").toList ++ e.1 ++ ("` from ").toList ++ e.2.1 ++ (" to ").toList ++
    e.2.2.1 ++ prSuffix e.2.2.2

def consolidate_dependabot_updates (updates : List Str) : List Str :=
  (consFold updates).1.map renderEntry ++ (consFold updates).2

/-- Lexicographic order on strings by code point; agrees with Rust's
byte-wise `Ord` on `String` because UTF-8 is order-preserving. -/
def strLe : Str → Str → Bool
  | [], _ => true
  | _ :: _, [] => false
  | a :: xs, b :: ys =>
    if a.toNat < b.toNat then true
    else if b.toNat < a.toNat then false
    else strLe xs ys

def strLeP (a b : Str) : Prop := strLe a b = true

instance : DecidableRel strLeP := fun a b => inferInstanceAs (Decidable (strLe a b = true))

def sortStr (l : List Str) : List Str := List.insertionSort strLeP l

/-- Rust `Vec::dedup`: remove consecutive duplicates. -/
def dedupAdj : List Str → List Str
  | [] => []
  | [a] => [a]
  | a :: b :: t => if a = b then dedupAdj (b :: t) else a :: dedupAdj (b :: t)

/-- Major-version record for one consolidated line (`generate_release_notes`
lines 340-355): re-parse with `re_update`, compare the leading `.`-separated
components as `u32`. -/
def majorRecord (line : Str) : Option Str :=
  match findUpdatesPat line with
  | some (pkg, frv, tov) =>
    let fm := frv.takeWhile (fun c => c ≠ '.')
    let tm := tov.takeWhile (fun c => c ≠ '.')
    match parseRustU32 fm, parseRustU32 tm with
    | some f, some t =>
      if t > f then some (pkg ++ (": ").toList ++ frv ++ (" → ").toList ++ tov) else none
    | _, _ => none
  | none => none

def warnHead : Str := ("⚠ WARNING: Major version changes detected: ").toList

def depHeader : Str := ("## Dependencies updated by dependabot:").toList

def otherHeader : Str := ("## Other changes:").toList

/-- Lines emitted for the dependency block of `generate_release_notes`. -/
def depSection (dep : List Str) : List Str :=
  if dep = [] then []
  else
    let dep2 := consolidate_dependabot_updates dep
    let majors := dep2.filterMap majorRecord
    (if majors = [] then []
     else [warnHead ++ (", ").toList.intercalate (sortStr majors), ([] : Str)]) ++
      [depHeader, ([] : Str)] ++ sortStr dep2 ++ [([] : Str)]

/-- Lines emitted for the other-changes block of `generate_release_notes`. -/
def otherSection (other : List Str) : List Str :=
  if other = [] then [] else otherHeader :: dedupAdj (sortStr other)

def generateLines (dep other : List Str) : List Str :=
  depSection dep ++ otherSection other

def joinNL : List Str → Str
  | [] => []
  | [l] => l
  | l :: m :: rest => l ++ '\n' :: joinNL (m :: rest)

def generate_release_notes (dep other : List Str) : Str :=
  joinNL (generateLines dep other)

/-- First item of a GitHub issue/PR search result, as the source consumes it:
its number and whether it is a pull request (has a `pull_request` field). -/
structure SearchItem where
  number : Nat
  isPullRequest : Bool

/-- The optional `octocrab` capability: a SHA search (keyed by the literal
query string the source builds) and a PR-body fetch.  `none` results cover
both API errors and empty answers, which the source treats alike. -/
structure GithubClient where
  searchFirstItem : Str → Option SearchItem
  pullRequestBody : Str → Str → Nat → Option Str

/-- Rust `str::lines`: split on `'\n'`, dropping one `'\r'` before each
`'\n'`; a final segment without a newline is yielded verbatim. -/
def stripCR (l : Str) : Str :=
  match l.getLast? with
  | some '\r' => l.dropLast
  | _ => l

def rustLinesFuel : Nat → Str → List Str
  | _, [] => []
  | 0, s => [s]
  | fuel + 1, s =>
    let line := s.takeWhile (fun c => c ≠ '\n')
    match s.drop line.length with
    | '\n' :: rest => stripCR line :: rustLinesFuel fuel rest
    | _ => [s]

def rustLines (s : Str) : List Str := rustLinesFuel s.length s

/-- PR numbers extracted from the subject, in the source's cascade order
(`re_merge`, then `re_bump`, then `re_fallback`); a capture that fails to
parse as `u64` does not fall through to the next regex. -/
def subjectPrNumber (subject : Str) : Option Nat :=
  match findMergeDigits subject with
  | some ds => parseRustU64 ds
  | none =>
    match findBumpDigits subject with
    | some ds => parseRustU64 ds
    | none =>
      match findPrDigits subject with
      | some ds => parseRustU64 ds
      | none => none

/-- PR-number resolution (`process_commit_with_pr` lines 52-103): the merge
hint, then the subject regexes, then the SHA search (first result only, and
only if it is a pull request). -/
def resolvePrNumber (subject hash : Str) (prFromMerge : Option Nat)
    (client : Option GithubClient) (owner repo : Str) : Option Nat :=
  let p1 := match prFromMerge with
    | some n => some n
    | none => subjectPrNumber subject
  match p1 with
  | some n => some n
  | none =>
    if owner ≠ [] ∧ repo ≠ [] then
      match client with
      | some c =>
        match c.searchFirstItem
            (("repo:").toList ++ owner ++ ['/'] ++ repo ++ (" sha:").toList ++ hash) with
        | some item => if item.isPullRequest then some item.number else none
        | none => none
      | none => none
    else none

/-- Filter for step 4 (the dependabot body scan): the lower-cased, trimmed
line starts with ``updates ` ``. -/
def bodyLineHit (line : Str) : Bool :=
  startsWithL (trimL (toLowerL line)) (("updates `").toList)

/-- Formatting of one step-4 body line (lines 111-117 of the source): the PR
suffix is appended whenever `include_pr` holds and a number was resolved. -/
def step4Line (includePr : Bool) (prn : Option Nat) (line : Str) : Str :=
  match includePr, prn with
  | true, some n => ("- ").toList ++ trimL line ++ prTok n
  | _, _ => ("- ").toList ++ trimL line

def bodyUpdateLines (includePr : Bool) (prn : Option Nat) (body : Str) : List Str :=
  ((rustLines body).filter bodyLineHit).map (step4Line includePr prn)

/-- Filter for step 5 (the fetched PR body): skip table/noise lines, then
match ``updates ` `` on the lower-cased, start-trimmed line. -/
def prBodyLineHit (line : Str) : Bool :=
  !(startsWithL line ['|'] || containsSub line (("|---").toList) ||
      containsSub line (("Bumps the").toList)) &&
    startsWithL (trimStartL (toLowerL line)) (("updates `").toList)

/-- Formatting of one step-5 PR-body line (lines 146-152 of the source). -/
def step5Line (includePr : Bool) (n : Nat) (line : Str) : Str :=
  if includePr then ("- ").toList ++ trimL line ++ prTok n
  else ("- ").toList ++ trimL line

def prBodyUpdateLines (includePr : Bool) (n : Nat) (prBody : Str) : List Str :=
  ((rustLines prBody).filter prBodyLineHit).map (step5Line includePr n)

/-- Step-6 subject cleaning (lines 167-186): with `include_pr` false, delete
every ` \(#[0-9]+\)` token (`replace_all`); with `include_pr` true, append
` (#N)` to the trimmed subject unless `#N` already occurs somewhere in it. -/
def cleanSubject (includePr : Bool) (prn : Option Nat) (subject : Str) : Str :=
  match includePr with
  | false => stripAllPr subject
  | true =>
    match prn with
    | some n =>
      if containsSub subject (hashTok n) then subject
      else trimL subject ++ prTok n
    | none => subject

inductive ProcessedCommit where
  | Dependabot (lines : List Str)
  | Other (line : Str)
deriving DecidableEq

/-- The commit classifier `process_commit_with_pr`. -/
def process_commit_with_pr (subject body hash author : Str) (includePr : Bool)
    (prFromMerge : Option Nat) (octocrab : Option GithubClient) (owner repo : Str) :
    Option ProcessedCommit :=
  let isDependabot := containsSub (toLowerL author) (("dependabot").toList)
  if containsSub (toLowerL subject) (("setting new snapshot version").toList) then none
  else
    let prNumber := resolvePrNumber subject hash prFromMerge octocrab owner repo
    let s4 := if isDependabot then bodyUpdateLines includePr prNumber body else []
    if s4 ≠ [] then some (.Dependabot s4)
    else
      let s5 := match prNumber with
        | some n =>
          match octocrab with
          | some c =>
            if owner ≠ [] ∧ repo ≠ [] then
              match c.pullRequestBody owner repo n with
              | some prBody => prBodyUpdateLines includePr n prBody
              | none => []
            else []
          | none => []
        | none => []
      if s5 ≠ [] then some (.Dependabot s5)
      else
        let cs := cleanSubject includePr prNumber subject
        if isDependabot then some (.Dependabot [("- ").toList ++ cs])
        else some (.Other (("- ").toList ++ cs ++ (" (").toList ++ author ++ [')']))

theorem startsWithL_iff (s p : Str) : startsWithL s p = true ↔ ∃ r, s = p ++ r := by
  induction p generalizing s with
  | nil => simp [startsWithL]
  | cons q ps ih =>
    cases s with
    | nil => simp [startsWithL]
    | cons c cs =>
      simp only [startsWithL, Bool.and_eq_true, decide_eq_true_eq, ih, List.cons_append,
        List.cons.injEq]
      constructor
      · rintro ⟨rfl, r, rfl⟩
        exact ⟨r, rfl, rfl⟩
      · rintro ⟨r, rfl, rfl⟩
        exact ⟨rfl, r, rfl⟩

theorem containsSub_iff (hay needle : Str) :
    containsSub hay needle = true ↔ ∃ l r, hay = l ++ needle ++ r := by
  induction hay with
  | nil =>
    rw [show containsSub [] needle = startsWithL [] needle from rfl, startsWithL_iff]
    constructor
    · rintro ⟨r, h⟩
      exact ⟨[], r, h⟩
    · rintro ⟨l, r, h⟩
      cases l with
      | nil => exact ⟨r, h⟩
      | cons a l2 => simp at h
  | cons c rest ih =>
    rw [show containsSub (c :: rest) needle =
      (startsWithL (c :: rest) needle || containsSub rest needle) from rfl]
    rw [Bool.or_eq_true, startsWithL_iff, ih]
    constructor
    · rintro (⟨r, h⟩ | ⟨l, r, h⟩)
      · exact ⟨[], r, by simpa using h⟩
      · refine ⟨c :: l, r, ?_⟩
        rw [List.cons_append, List.cons_append, ← h]
    · rintro ⟨l, r, h⟩
      cases l with
      | nil => exact Or.inl ⟨r, by simpa using h⟩
      | cons a l2 =>
        right
        rw [List.cons_append, List.cons_append] at h
        injection h with h1 h2
        exact ⟨l2, r, h2⟩

/-- Substring containment passes to an infix of the needle. -/
theorem containsSub_mid (hay a b c : Str) (h : containsSub hay (a ++ b ++ c) = true) :
    containsSub hay b = true := by
  rw [containsSub_iff] at h ⊢
  obtain ⟨l, r, hh⟩ := h
  exact ⟨l ++ a, c ++ r, by rw [hh]; simp [List.append_assoc]⟩

theorem lookupPkg_update_self (m : ConsMap) (pkg : Str) (e v : ConsEntry)
    (h : lookupPkg m pkg = some e) : lookupPkg (updatePkg m pkg v) pkg = some v := by
  induction m with
  | nil => simp [lookupPkg] at h
  | cons kv rest ih =>
    obtain ⟨k, w⟩ := kv
    by_cases hk : k = pkg
    · subst hk
      simp [updatePkg, lookupPkg]
    · simp only [lookupPkg, if_neg hk] at h
      simp [updatePkg, lookupPkg, hk, ih h]

theorem lookupPkg_update_ne (m : ConsMap) (pkg q : Str) (v : ConsEntry) (h : q ≠ pkg) :
    lookupPkg (updatePkg m pkg v) q = lookupPkg m q := by
  induction m with
  | nil => simp [updatePkg]
  | cons kv rest ih =>
    obtain ⟨k, w⟩ := kv
    by_cases hk : k = pkg
    · subst hk
      have hkq : ¬ (k = q) := fun hq => h hq.symm
      simp [updatePkg, lookupPkg, hkq]
    · simp [updatePkg, lookupPkg, hk, ih]

theorem lookupPkg_append_self (m : ConsMap) (pkg : Str) (e : ConsEntry)
    (h : lookupPkg m pkg = none) : lookupPkg (m ++ [(pkg, e)]) pkg = some e := by
  induction m with
  | nil => simp [lookupPkg]
  | cons kv rest ih =>
    obtain ⟨k, w⟩ := kv
    by_cases hk : k = pkg
    · simp [lookupPkg, hk] at h
    · simp only [lookupPkg, if_neg hk] at h
      simp [lookupPkg, hk, ih h]

theorem lookupPkg_append_ne (m : ConsMap) (k : Str) (e : ConsEntry) (q : Str) (h : q ≠ k) :
    lookupPkg (m ++ [(k, e)]) q = lookupPkg m q := by
  have hkq : ¬ (k = q) := fun hq => h hq.symm
  induction m with
  | nil => simp [lookupPkg, hkq]
  | cons kv rest ih =>
    obtain ⟨k2, w⟩ := kv
    by_cases hk : k2 = q
    · simp [lookupPkg, hk]
    · simp [lookupPkg, hk, ih]

theorem lookupPkg_mem (m : ConsMap) (pkg : Str) (e : ConsEntry)
    (h : lookupPkg m pkg = some e) : (pkg, e) ∈ m := by
  induction m with
  | nil => simp [lookupPkg] at h
  | cons kv rest ih =>
    obtain ⟨k, w⟩ := kv
    by_cases hk : k = pkg
    · subst hk
      simp only [lookupPkg, eq_self_iff_true, if_true, Option.some.injEq] at h
      subst h
      exact List.mem_cons_self _ _
    · simp only [lookupPkg, if_neg hk] at h
      exact List.mem_cons_of_mem _ (ih h)

theorem strLe_total (a b : Str) : strLe a b = true ∨ strLe b a = true := by
  induction a generalizing b with
  | nil => left; rfl
  | cons x xs ih =>
    cases b with
    | nil => right; rfl
    | cons y ys =>
      rcases Nat.lt_trichotomy x.toNat y.toNat with h | h | h
      · left
        simp [strLe, h]
      · rcases ih ys with h2 | h2
        · left
          simp [strLe, h, Nat.lt_irrefl, h2]
        · right
          simp [strLe, h.symm, Nat.lt_irrefl, h2]
      · right
        simp [strLe, h]

theorem strLe_trans (a b c : Str) (hab : strLe a b = true) (hbc : strLe b c = true) :
    strLe a c = true := by
  induction a generalizing b c with
  | nil => rfl
  | cons x xs ih =>
    cases b with
    | nil => simp [strLe] at hab
    | cons y ys =>
      cases c with
      | nil => simp [strLe] at hbc
      | cons z zs =>
        simp only [strLe] at hab hbc ⊢
        by_cases h1 : x.toNat < y.toNat
        · by_cases h2 : y.toNat < z.toNat
          · simp [Nat.lt_trans h1 h2]
          · by_cases h3 : z.toNat < y.toNat
            · rw [if_neg h2, if_pos h3] at hbc
              exact absurd hbc (by simp)
            · have hyz : y.toNat = z.toNat :=
                Nat.le_antisymm (Nat.not_lt.mp h3) (Nat.not_lt.mp h2)
              simp [hyz ▸ h1]
        · by_cases h4 : y.toNat < x.toNat
          · rw [if_neg h1, if_pos h4] at hab
            exact absurd hab (by simp)
          · have hxy : x.toNat = y.toNat :=
              Nat.le_antisymm (Nat.not_lt.mp h4) (Nat.not_lt.mp h1)
            rw [if_neg h1, if_neg h4] at hab
            by_cases h2 : y.toNat < z.toNat
            · simp [hxy ▸ h2]
            · by_cases h3 : z.toNat < y.toNat
              · rw [if_neg h2, if_pos h3] at hbc
                exact absurd hbc (by simp)
              · rw [if_neg h2, if_neg h3] at hbc
                have hxz : x.toNat = z.toNat :=
                  hxy.trans (Nat.le_antisymm (Nat.not_lt.mp h3) (Nat.not_lt.mp h2))
                rw [if_neg (hxz ▸ Nat.lt_irrefl _), if_neg (hxz ▸ Nat.lt_irrefl _)]
                exact ih ys zs hab hbc

instance : IsTotal Str strLeP := ⟨strLe_total⟩

instance : IsTrans Str strLeP := ⟨strLe_trans⟩

theorem joinNL_concat (xs : List Str) (y : Str) (h : xs ≠ []) :
    joinNL (xs ++ [y]) = joinNL xs ++ '\n' :: y := by
  induction xs with
  | nil => exact absurd rfl h
  | cons x t ih =>
    cases t with
    | nil => rfl
    | cons x2 t2 =>
      have e1 : joinNL ((x :: x2 :: t2) ++ [y]) = x ++ '\n' :: joinNL ((x2 :: t2) ++ [y]) := rfl
      have e2 : joinNL (x :: x2 :: t2) = x ++ '\n' :: joinNL (x2 :: t2) := rfl
      rw [e1, e2, ih (by simp)]
      simp

theorem getLast_joinNL (xs : List Str) (h : xs ≠ []) :
    (joinNL (xs ++ [([] : Str)])).getLast? = some '\n' := by
  rw [joinNL_concat xs [] h]
  exact List.getLast?_concat _

/-- The passthrough component of the consolidation fold collects exactly the
lines on which the three-pattern cascade fails, in input order. -/
theorem consFold_others (lines : List Str) : ∀ (m : ConsMap) (os : List Str),
    (lines.foldl consStep (m, os)).2 =
      os ++ lines.filter (fun l => (parseUpdateLine l).isNone) := by
  induction lines with
  | nil => intro m os; simp
  | cons l ls ih =>
    intro m os
    rw [List.foldl_cons]
    cases hp : parseUpdateLine l with
    | some v =>
      obtain ⟨pkg, frv, tov⟩ := v
      cases hl : lookupPkg m pkg with
      | some e =>
        obtain ⟨ef, et, prs⟩ := e
        simp [consStep, hp, hl, ih, List.filter]
      | none => simp [consStep, hp, hl, ih, List.filter]
    | none =>
      simp [consStep, hp, ih, List.filter]

theorem renderEntry_shape (pkg : Str) (e : ConsEntry) :
    renderEntry (pkg, e) = ("- Updates `").toList ++ pkg ++ ("` from ").toList ++ e.1 ++
      (" to ").toList ++ e.2.1 ++ prSuffix e.2.2 := rfl

theorem consMerge_extendUp (ef et : Str) (prs : List Nat) (frv tov : Str) (prn : Option Nat)
    (h1 : tov ≠ ef) (h2 : frv = et) :
    (consMerge ef et prs frv tov prn).1 = ef ∧ (consMerge ef et prs frv tov prn).2.1 = tov := by
  constructor <;> simp [consMerge, if_neg h1, h2]

theorem consMerge_extendDown (ef et : Str) (prs : List Nat) (frv tov : Str) (prn : Option Nat)
    (h : tov = ef) :
    (consMerge ef et prs frv tov prn).1 = frv ∧ (consMerge ef et prs frv tov prn).2.1 = et := by
  constructor <;> simp [consMerge, h]

theorem consMerge_prs (ef et : Str) (prs : List Nat) (frv tov : Str) (prn : Option Nat) :
    (consMerge ef et prs frv tov prn).2.2 =
      match prn with
      | some p => if prs.contains p then prs else prs ++ [p]
      | none => prs := rfl

/-- C1 counterexample: with facts `lib: 1 → 2` then `lib: 2 → 1` (the case
`c = a` of the claim, supplied in chain order), the single entry produced is
`2 → 2`, not the range `1 → 1` from `a` to `c` that the claim demands. -/
theorem claim_C1_counterexample :
    consolidate_dependabot_updates
        [("- Updates `lib` from 1 to 2").toList, ("- Updates `lib` from 2 to 1").toList] =
      [("- Updates `lib` from 2 to 2").toList] ∧
    consolidate_dependabot_updates
        [("- Updates `lib` from 1 to 2").toList, ("- Updates `lib` from 2 to 1").toList] ≠
      [("- Updates `lib` from 1 to 1").toList] := by
  exact ⟨by decide, by decide⟩

/-- C1 (amended): if consolidate receives exactly two parsed facts for a
package `P`, one `a → b` and one `b → c`, in either order, and `c ≠ a`, then
the output is exactly one entry line for `P` rendering the range `a → c`
(followed by the entry's PR suffix). -/
theorem claim_C1_amended (l1 l2 P a b c : Str)
    (h1 : parseUpdateLine l1 = some (P, a, b))
    (h2 : parseUpdateLine l2 = some (P, b, c))
    (hca : c ≠ a) :
    (∃ sfx, consolidate_dependabot_updates [l1, l2] =
      [("- Updates `").toList ++ P ++ ("` from ").toList ++ a ++ (" to ").toList ++ c ++ sfx]) ∧
    (∃ sfx, consolidate_dependabot_updates [l2, l1] =
      [("- Updates `").toList ++ P ++ ("` from ").toList ++ a ++ (" to ").toList ++ c ++ sfx]) := by
  constructor
  · have e1 : consolidate_dependabot_updates [l1, l2] =
        [renderEntry (P, consMerge a b ((linePrNumber l1).toList) b c (linePrNumber l2))] := by
      simp only [consolidate_dependabot_updates, consFold, List.foldl, consStep, h1, h2,
        lookupPkg, updatePkg, eq_self_iff_true, if_true, List.map_cons, List.map_nil,
        List.append_nil, List.nil_append]
    obtain ⟨hf, ht⟩ := consMerge_extendUp a b ((linePrNumber l1).toList) b c
      (linePrNumber l2) hca rfl
    refine ⟨prSuffix ((consMerge a b ((linePrNumber l1).toList) b c (linePrNumber l2)).2.2), ?_⟩
    rw [e1, renderEntry_shape, hf, ht]
  · have e1 : consolidate_dependabot_updates [l2, l1] =
        [renderEntry (P, consMerge b c ((linePrNumber l2).toList) a b (linePrNumber l1))] := by
      simp only [consolidate_dependabot_updates, consFold, List.foldl, consStep, h1, h2,
        lookupPkg, updatePkg, eq_self_iff_true, if_true, List.map_cons, List.map_nil,
        List.append_nil, List.nil_append]
    obtain ⟨hf, ht⟩ := consMerge_extendDown b c ((linePrNumber l2).toList) a b
      (linePrNumber l1) rfl
    refine ⟨prSuffix ((consMerge b c ((linePrNumber l2).toList) a b (linePrNumber l1)).2.2), ?_⟩
    rw [e1, renderEntry_shape, hf, ht]

/-- C1 witness: the amended theorem applied to the concrete chain
`lib: 1.0 → 1.1`, `lib: 1.1 → 1.2`. -/
theorem claim_C1_witness :
    (∃ sfx, consolidate_dependabot_updates
        [("- Updates `lib` from 1.0 to 1.1").toList, ("- Updates `lib` from 1.1 to 1.2").toList] =
      [("- Updates `").toList ++ ("lib").toList ++ ("` from ").toList ++ ("1.0").toList ++
        (" to ").toList ++ ("1.2").toList ++ sfx]) ∧
    (∃ sfx, consolidate_dependabot_updates
        [("- Updates `lib` from 1.1 to 1.2").toList, ("- Updates `lib` from 1.0 to 1.1").toList] =
      [("- Updates `").toList ++ ("lib").toList ++ ("` from ").toList ++ ("1.0").toList ++
        (" to ").toList ++ ("1.2").toList ++ sfx]) :=
  claim_C1_amended (("- Updates `lib` from 1.0 to 1.1").toList)
    (("- Updates `lib` from 1.1 to 1.2").toList) (("lib").toList) (("1.0").toList)
    (("1.1").toList) (("1.2").toList) (by decide) (by decide) (by decide)

/-- C4: in step 6 with `include_pr` true and resolved number `N`, if the
exact token ` (#N)` already occurs anywhere in the subject then the subject
is left unchanged, and whenever the cleaning changes the subject the token
was absent and the result is the trimmed subject with ` (#N)` appended. -/
theorem claim_C4 (n : Nat) (subject : Str) :
    (containsSub subject (prTok n) = true →
      cleanSubject true (some n) subject = subject) ∧
    (cleanSubject true (some n) subject ≠ subject →
      containsSub subject (prTok n) = false ∧
      cleanSubject true (some n) subject = trimL subject ++ prTok n) := by
  have key : containsSub subject (prTok n) = true →
      containsSub subject (hashTok n) = true := by
    intro h
    refine containsSub_mid subject [' ', '('] (hashTok n) [')'] ?_
    have : prTok n = [' ', '('] ++ hashTok n ++ [')'] := rfl
    rw [← this]
    exact h
  constructor
  · intro h
    simp [cleanSubject, key h]
  · intro hne
    by_cases h2 : containsSub subject (hashTok n) = true
    · exact absurd (by simp [cleanSubject, h2]) hne
    · have h2' : containsSub subject (hashTok n) = false := by
        cases hx : containsSub subject (hashTok n)
        · rfl
        · exact absurd hx h2
      refine ⟨?_, by simp [cleanSubject, h2']⟩
      cases hx : containsSub subject (prTok n)
      · rfl
      · exact absurd (key hx) h2

/-- C4 witness: subject `Fix bug (#123)` with resolved PR 123 is emitted
unchanged. -/
theorem claim_C4_witness :
    cleanSubject true (some 123) (("Fix bug (#123)").toList) = ("Fix bug (#123)").toList :=
  (claim_C4 123 (("Fix bug (#123)").toList)).1 (by decide)

/-- C8: a parsed fact whose boundaries match neither end of the existing
entry leaves the entry's version range unchanged and only extends its PR
list (when a PR number is present and new); the passthrough list is also
untouched. -/
theorem claim_C8 (m : ConsMap) (os : List Str) (line pkg frv tov f t : Str) (prs : List Nat)
    (hp : parseUpdateLine line = some (pkg, frv, tov))
    (hl : lookupPkg m pkg = some (f, t, prs))
    (h1 : tov ≠ f) (h2 : frv ≠ t) :
    lookupPkg (consStep (m, os) line).1 pkg =
      some (f, t,
        match linePrNumber line with
        | some p => if prs.contains p then prs else prs ++ [p]
        | none => prs) ∧
    (consStep (m, os) line).2 = os := by
  constructor
  · simp only [consStep, hp, hl]
    rw [lookupPkg_update_self m pkg (f, t, prs) _ hl]
    simp [consMerge, if_neg h1, if_neg h2]
  · simp [consStep, hp, hl]

/-- C8 witness: entry `lib: 1 → 2` with PR set `{9}` meets the disjoint fact
`lib: 5 → 6 (#4)`; the range stays `1 → 2` and the PR set becomes `{9, 4}`. -/
theorem claim_C8_witness :
    lookupPkg (consStep ([((("lib").toList),
        ((("1").toList), (("2").toList), [9]))], [])
      (("- Updates `lib` from 5 to 6 (#4)").toList)).1 (("lib").toList) =
      some ((("1").toList), (("2").toList), [9, 4]) ∧
    (consStep ([((("lib").toList), ((("1").toList), (("2").toList), [9]))], [])
      (("- Updates `lib` from 5 to 6 (#4)").toList)).2 = [] :=
  claim_C8 [((("lib").toList), ((("1").toList), (("2").toList), [9]))] []
    (("- Updates `lib` from 5 to 6 (#4)").toList) (("lib").toList) (("5").toList)
    (("6").toList) (("1").toList) (("2").toList) [9]
    (by decide) (by decide) (by decide) (by decide)

/-- C9: consolidation never drops an unparsed line — the output is the
rendered package entries followed by exactly the lines on which all three
patterns fail, verbatim and in input order. -/
theorem claim_C9 (updates : List Str) :
    consolidate_dependabot_updates updates =
      (consFold updates).1.map renderEntry ++
        updates.filter (fun l => (parseUpdateLine l).isNone) ∧
    ∀ l, l ∈ updates → parseUpdateLine l = none →
      l ∈ consolidate_dependabot_updates updates := by
  have h0 : (consFold updates).2 = updates.filter (fun l => (parseUpdateLine l).isNone) := by
    rw [show consFold updates = updates.foldl consStep ([], []) from rfl,
      consFold_others updates [] []]
    rfl
  constructor
  · rw [show consolidate_dependabot_updates updates =
      (consFold updates).1.map renderEntry ++ (consFold updates).2 from rfl, h0]
  · intro l hmem hp
    rw [show consolidate_dependabot_updates updates =
      (consFold updates).1.map renderEntry ++ (consFold updates).2 from rfl, h0]
    refine List.mem_append_right _ ?_
    rw [List.mem_filter]
    exact ⟨hmem, by simp [hp]⟩

/-- C9 witness: an unparseable line passes through. -/
theorem claim_C9_witness :
    ("- some free-form note").toList ∈
      consolidate_dependabot_updates [("- some free-form note").toList] :=
  (claim_C9 [("- some free-form note").toList]).2 (("- some free-form note").toList)
    (by decide) (by decide)

/-- C2 counterexample: a dependabot commit whose body line already carries
the exact token ` (#5)` (and whose subject resolves PR 5) is still suffixed,
producing ` (#5) (#5)` — the claim's "not already present" condition does not
exist in the code. -/
theorem claim_C2_counterexample :
    process_commit_with_pr (("Update deps (#5)").toList)
        (("Updates `lib` from 1 to 2 (#5)").toList) (("sha").toList)
        (("dependabot[bot]").toList) true none none [] [] =
      some (.Dependabot [("- Updates `lib` from 1 to 2 (#5) (#5)").toList]) ∧
    containsSub (("Updates `lib` from 1 to 2 (#5)").toList) (prTok 5) = true ∧
    [("- Updates `lib` from 1 to 2 (#5) (#5)").toList] ≠
      [("- Updates `lib` from 1 to 2 (#5)").toList] := by
  exact ⟨by decide, by decide, by decide⟩

/-- C2 (amended): in steps 4 and 5 the ` (#N)` suffix is appended exactly
when `includePrNumbers` holds and a PR number was resolved, with no check
whether the token already occurs in the line; a line already containing
` (#N)` receives a second copy.  The body scan and the PR-body scan feed the
classifier output as stated. -/
theorem claim_C2_amended (subject body hash author owner repo prBody : Str)
    (pfm : Option Nat) (cli : GithubClient) (n : Nat) :
    (∀ l, step4Line true (some n) l = ("- ").toList ++ trimL l ++ prTok n) ∧
    (∀ l, step5Line true n l = ("- ").toList ++ trimL l ++ prTok n) ∧
    (∀ client : Option GithubClient,
      containsSub (toLowerL subject) (("setting new snapshot version").toList) = false →
      containsSub (toLowerL author) (("dependabot").toList) = true →
      bodyUpdateLines true (resolvePrNumber subject hash pfm client owner repo) body ≠ [] →
      process_commit_with_pr subject body hash author true pfm client owner repo =
        some (.Dependabot
          (bodyUpdateLines true (resolvePrNumber subject hash pfm client owner repo) body))) ∧
    (containsSub (toLowerL subject) (("setting new snapshot version").toList) = false →
      containsSub (toLowerL author) (("dependabot").toList) = false →
      resolvePrNumber subject hash pfm (some cli) owner repo = some n →
      owner ≠ [] → repo ≠ [] →
      cli.pullRequestBody owner repo n = some prBody →
      prBodyUpdateLines true n prBody ≠ [] →
      process_commit_with_pr subject body hash author true pfm (some cli) owner repo =
        some (.Dependabot (prBodyUpdateLines true n prBody))) := by
  refine ⟨fun l => rfl, fun l => rfl, ?_, ?_⟩
  · intro client hsnap hdep hne
    simp at hsnap hdep
    simp [process_commit_with_pr, hsnap, hdep, hne]
  · intro hsnap hdep hres how hrep hbody hne
    simp at hsnap hdep
    simp [process_commit_with_pr, hsnap, hdep, hres, how, hrep, hbody, hne]

/-- C2 witness: the amended step-4 description at the counterexample input. -/
theorem claim_C2_witness :
    process_commit_with_pr (("Update deps (#5)").toList)
        (("Updates `lib` from 1 to 2 (#5)").toList) (("sha").toList)
        (("dependabot[bot]").toList) true none none [] [] =
      some (.Dependabot
        (bodyUpdateLines true
          (resolvePrNumber (("Update deps (#5)").toList) (("sha").toList) none none [] [])
          (("Updates `lib` from 1 to 2 (#5)").toList))) :=
  (claim_C2_amended (("Update deps (#5)").toList) (("Updates `lib` from 1 to 2 (#5)").toList)
      (("sha").toList) (("dependabot[bot]").toList) [] [] [] none
      ⟨fun _ => none, fun _ _ _ => none⟩ 5).2.2.1 none (by decide) (by decide) (by decide)

/-- C5 counterexample: with `includePrNumbers = false` the subject
`Fix (#1) bug (#2)` loses *both* PR tokens (the code runs `replace_all`),
while the claim demands that only a trailing token be stripped, which would
keep `(#1)`. -/
theorem claim_C5_counterexample :
    process_commit_with_pr (("Fix (#1) bug (#2)").toList) [] (("sha").toList)
        (("User").toList) false none none [] [] =
      some (.Other (("- Fix bug (User)").toList)) ∧
    some (ProcessedCommit.Other (("- Fix bug (User)").toList)) ≠
      some (.Other (("- Fix (#1) bug (User)").toList)) := by
  exact ⟨by decide, by decide⟩

/-- C5 (amended): with `includePrNumbers = false` the cleaned subject is the
original subject with *every* ` (#digits)` token removed (not only a trailing
one), and a generic commit then yields `- {cleanedSubject} ({author})`. -/
theorem claim_C5_amended (subject body hash author owner repo : Str) (pfm : Option Nat)
    (hsnap : containsSub (toLowerL subject) (("setting new snapshot version").toList) = false)
    (hdep : containsSub (toLowerL author) (("dependabot").toList) = false) :
    process_commit_with_pr subject body hash author false pfm none owner repo =
      some (.Other (("- ").toList ++ stripAllPr subject ++ (" (").toList ++ author ++ [')'])) := by
  have hsnap2 := hsnap
  have hdep2 := hdep
  simp at hsnap2 hdep2
  cases hres : resolvePrNumber subject hash pfm none owner repo with
  | none => simp [process_commit_with_pr, hsnap2, hdep2, hres, cleanSubject]
  | some k => simp [process_commit_with_pr, hsnap2, hdep2, hres, cleanSubject]

/-- C5 witness: the spec's own example — subject `Fix bug (#123)`,
`includePrNumbers = false` — yields `- Fix bug (User)`. -/
theorem claim_C5_witness :
    process_commit_with_pr (("Fix bug (#123)").toList) [] (("sha").toList) (("User").toList)
        false none none [] [] = some (.Other (("- Fix bug (User)").toList)) :=
  claim_C5_amended (("Fix bug (#123)").toList) [] (("sha").toList) (("User").toList) [] []
    none (by decide) (by decide)

/-- C6 counterexample: `generate` on a nonempty dependency list and no other
changes ends with a trailing `'\n'` (the blank line pushed after the
dependency section), contradicting the claimed absence of a trailing
newline. -/
theorem claim_C6_counterexample :
    (generate_release_notes [("- Updates `lib` from 1.0.0 to 1.1.0").toList] []).getLast? =
      some '\n' ∧
    generate_release_notes [("- Updates `lib` from 1.0.0 to 1.1.0").toList] [] =
      ("## Dependencies updated by dependabot:\n\n- Updates `lib` from 1.0.0 to 1.1.0\n").toList := by
  exact ⟨by decide, by decide⟩

/-- C6 (amended): `generate` joins the emitted lines with single `'\n'`
separators and `generate([], [])` is the empty string; but whenever the
dependency list is nonempty and the other-changes list is empty, the output
ends with a trailing `'\n'`. -/
theorem claim_C6_amended :
    generate_release_notes [] [] = [] ∧
    ∀ dep : List Str, dep ≠ [] →
      (generate_release_notes dep []).getLast? = some '\n' := by
  constructor
  · rfl
  · intro dep hne
    have hd : ∃ w : List Str,
        generateLines dep [] =
          (w ++ [depHeader, ([] : Str)] ++ sortStr (consolidate_dependabot_updates dep)) ++
            [([] : Str)] := by
      refine ⟨if (consolidate_dependabot_updates dep).filterMap majorRecord = [] then []
        else [warnHead ++ (", ").toList.intercalate
          (sortStr ((consolidate_dependabot_updates dep).filterMap majorRecord)), ([] : Str)],
        ?_⟩
      simp [generateLines, depSection, otherSection, hne, sortStr, List.append_assoc]
    obtain ⟨w, hw⟩ := hd
    rw [show generate_release_notes dep [] = joinNL (generateLines dep []) from rfl, hw]
    exact getLast_joinNL _ (by simp)

/-- C6 witness: the amended trailing-newline statement at a concrete input. -/
theorem claim_C6_witness :
    (generate_release_notes [("- misc dependency note").toList] []).getLast? = some '\n' :=
  claim_C6_amended.2 [("- misc dependency note").toList] (by decide)

theorem takeWhile_digits_run (ds l2 : Str) (hdig : ds.all Char.isDigit = true) :
    (ds ++ ')' :: l2).takeWhile Char.isDigit = ds := by
  induction ds with
  | nil =>
    rw [List.nil_append, List.takeWhile_cons, if_neg (by decide)]
  | cons d tl ih =>
    rw [List.all_cons, Bool.and_eq_true] at hdig
    rw [List.cons_append, List.takeWhile_cons, if_pos hdig.1, ih hdig.2]

theorem matchPrAt_token (ds l2 : Str) (hne : ds ≠ []) (hdig : ds.all Char.isDigit = true) :
    matchPrAt ('(' :: '#' :: (ds ++ ')' :: l2)) = some (ds, l2) := by
  have h1 : stripPre (['(', '#']) ('(' :: '#' :: (ds ++ ')' :: l2)) =
      some (ds ++ ')' :: l2) := rfl
  have h2 : (ds ++ ')' :: l2).drop ds.length = ')' :: l2 := by
    rw [show ds.length = ds.length from rfl]
    exact List.drop_left ds (')' :: l2)
  simp only [matchPrAt, h1, takeWhile_digits_run ds l2 hdig, if_neg hne, h2]

theorem findPrDigits_first (l1 ds l2 : Str)
    (hne : ds ≠ []) (hdig : ds.all Char.isDigit = true)
    (hfirst : ∀ i, i < l1.length →
      matchPrAt ((l1 ++ '(' :: '#' :: (ds ++ ')' :: l2)).drop i) = none) :
    findPrDigits (l1 ++ '(' :: '#' :: (ds ++ ')' :: l2)) = some ds := by
  induction l1 with
  | nil =>
    rw [List.nil_append]
    simp only [findPrDigits, matchPrAt_token ds l2 hne hdig]
  | cons c t ih =>
    have h0 := hfirst 0 (by simp)
    rw [List.drop_zero] at h0
    rw [List.cons_append] at h0 ⊢
    simp only [findPrDigits, h0]
    refine ih (fun i hi => ?_)
    have := hfirst (i + 1) (by simp only [List.length_cons]; omega)
    rw [List.cons_append, List.drop_succ_cons] at this
    exact this

theorem parseRustU64_digits (ds : Str) (hne : ds ≠ []) (hdig : ds.all Char.isDigit = true)
    (hval : digitsVal ds < 2 ^ 64) : parseRustU64 ds = some (digitsVal ds) := by
  cases ds with
  | nil => exact absurd rfl hne
  | cons d tl =>
    rw [List.all_cons, Bool.and_eq_true] at hdig
    have hplus : ¬ ((d :: tl).head? = some '+') := by
      intro h
      rw [show (d :: tl).head? = some d from rfl] at h
      injection h with h2
      rw [h2] at hdig
      exact absurd hdig.1 (by decide)
    have hdig2 : (d :: tl).all Char.isDigit = true := by
      rw [List.all_cons, Bool.and_eq_true]
      exact hdig
    have hcond : ((d :: tl).head? = some '+') = False := eq_false hplus
    simp only [parseRustU64, parseRustNat, hcond, if_false]
    rw [if_pos (⟨List.cons_ne_nil d tl, hdig2⟩ :
      (d :: tl) ≠ [] ∧ (d :: tl).all Char.isDigit = true)]
    rw [if_pos hval]

/-- C10: for a line that parses as an update (under any of the three
patterns) and whose first `\(#digits\)` token is the one exhibited — even if
that token sits inside the package name or a version token — the PR number
recorded for the line is that token's value, and a fresh entry built from
the line carries exactly that number in its PR set. -/
theorem claim_C10 (l1 ds l2 pkg frv tov : Str)
    (hp : parseUpdateLine (l1 ++ '(' :: '#' :: (ds ++ ')' :: l2)) = some (pkg, frv, tov))
    (hne : ds ≠ [])
    (hdig : ds.all Char.isDigit = true)
    (hval : digitsVal ds < 2 ^ 64)
    (hfirst : ∀ i, i < l1.length →
      matchPrAt ((l1 ++ '(' :: '#' :: (ds ++ ')' :: l2)).drop i) = none) :
    linePrNumber (l1 ++ '(' :: '#' :: (ds ++ ')' :: l2)) = some (digitsVal ds) ∧
    lookupPkg (consFold [l1 ++ '(' :: '#' :: (ds ++ ')' :: l2)]).1 pkg =
      some (frv, tov, [digitsVal ds]) := by
  have hpn : linePrNumber (l1 ++ '(' :: '#' :: (ds ++ ')' :: l2)) = some (digitsVal ds) := by
    simp only [linePrNumber, findPrDigits_first l1 ds l2 hne hdig hfirst,
      parseRustU64_digits ds hne hdig hval]
  refine ⟨hpn, ?_⟩
  simp [consFold, consStep, hp, hpn, lookupPkg]

/-- C10 witness: the only `(#7)` token of
`- Updates `lib (#7) x` from 1.0 to 2.0` sits inside the backtick-delimited
package name, yet it becomes the entry's PR number. -/
theorem claim_C10_witness :
    linePrNumber (("- Updates `lib ").toList ++ '(' :: '#' ::
        ((("7").toList) ++ ')' :: ((" x` from 1.0 to 2.0").toList))) =
      some (digitsVal (("7").toList)) ∧
    lookupPkg (consFold [("- Updates `lib ").toList ++ '(' :: '#' ::
        ((("7").toList) ++ ')' :: ((" x` from 1.0 to 2.0").toList))]).1
        (("lib (#7) x").toList) =
      some ((("1.0").toList), (("2.0").toList), [digitsVal (("7").toList)]) :=
  claim_C10 (("- Updates `lib ").toList) (("7").toList) ((" x` from 1.0 to 2.0").toList)
    (("lib (#7) x").toList) (("1.0").toList) (("2.0").toList)
    (by decide) (by decide) (by decide) (by decide) (by decide)

/-- C7: the major-version warning line (followed by an empty line) is
emitted exactly when some consolidated line re-parses under pattern 1 with
numeric leading components and a strictly larger target major; the warning
list is the ascending lexicographic sort of the records
`{pkg}: {from} → {to}`; entries that fail the numeric check still appear,
consolidated, in the dependency section. -/
theorem claim_C7 (dep other : List Str) :
    (dep = [] → generateLines dep other = otherSection other) ∧
    (dep ≠ [] →
      generateLines dep other =
        (if (consolidate_dependabot_updates dep).filterMap majorRecord = [] then []
         else [warnHead ++ (", ").toList.intercalate
            (sortStr ((consolidate_dependabot_updates dep).filterMap majorRecord)),
            ([] : Str)]) ++
          [depHeader, ([] : Str)] ++ sortStr (consolidate_dependabot_updates dep) ++
          [([] : Str)] ++ otherSection other) ∧
    (sortStr ((consolidate_dependabot_updates dep).filterMap majorRecord)).Sorted strLeP ∧
    (∀ l r, majorRecord l = some r ↔
      ∃ pkg frv tov fm tm,
        findUpdatesPat l = some (pkg, frv, tov) ∧
        parseRustU32 (frv.takeWhile (fun c => c ≠ '.')) = some fm ∧
        parseRustU32 (tov.takeWhile (fun c => c ≠ '.')) = some tm ∧
        fm < tm ∧
        r = pkg ++ (": ").toList ++ frv ++ (" → ").toList ++ tov) := by
  refine ⟨?_, ?_, List.sorted_insertionSort strLeP _, ?_⟩
  · intro h
    subst h
    rfl
  · intro hne
    simp only [generateLines, depSection, if_neg hne, sortStr, List.append_assoc]
  · intro l r
    constructor
    · intro h
      unfold majorRecord at h
      cases hf : findUpdatesPat l with
      | none => simp only [hf] at h; cases h
      | some v =>
        obtain ⟨pkg, frv, tov⟩ := v
        simp only [hf] at h
        cases hfm : parseRustU32 (frv.takeWhile (fun c => c ≠ '.')) with
        | none => simp only [hfm] at h; cases h
        | some fm =>
          cases htm : parseRustU32 (tov.takeWhile (fun c => c ≠ '.')) with
          | none => simp only [hfm, htm] at h; cases h
          | some tm =>
            simp only [hfm, htm] at h
            by_cases hlt : tm > fm
            · rw [if_pos hlt] at h
              injection h with h2
              exact ⟨pkg, frv, tov, fm, tm, rfl, hfm, htm, hlt, h2.symm⟩
            · rw [if_neg hlt] at h
              cases h
    · rintro ⟨pkg, frv, tov, fm, tm, hf, hfm, htm, hlt, rfl⟩
      simp only [majorRecord, hf, hfm, htm]
      rw [if_pos hlt]

/-- Contribution of one input line to the PR numbers of package `pkg`: the
line's extracted PR number when the line parses as a fact for `pkg`. -/
def factPrContrib (pkg line : Str) : List Nat :=
  match parseUpdateLine line with
  | some (p, _, _) => if p = pkg then (linePrNumber line).toList else []
  | none => []

/-- All PR numbers of parsed facts for `pkg` among `lines`, in order. -/
def factPrs (lines : List Str) (pkg : Str) : List Nat :=
  match lines with
  | [] => []
  | l :: ls => factPrContrib pkg l ++ factPrs ls pkg

/-- Invariant of the consolidation map: every entry's PR list is duplicate
free and holds exactly the numbers collected (`g`) for its package, and
unseen packages have collected nothing. -/
def MapPrInv (m : ConsMap) (g : Str → List Nat) : Prop :=
  (∀ pkg f t prs, lookupPkg m pkg = some (f, t, prs) →
    prs.Nodup ∧ ∀ p, p ∈ prs ↔ p ∈ g pkg) ∧
  (∀ pkg, lookupPkg m pkg = none → g pkg = [])

theorem MapPrInv_congr (m : ConsMap) (g g2 : Str → List Nat) (h : ∀ pk, g pk = g2 pk) :
    MapPrInv m g → MapPrInv m g2 := by
  rintro ⟨h1, h2⟩
  constructor
  · intro pkg f t prs hl
    rw [← h pkg]
    exact h1 pkg f t prs hl
  · intro pkg hl
    rw [← h pkg]
    exact h2 pkg hl

theorem prs_extend_inv (prs0 : List Nat) (q : Option Nat) (gp : List Nat)
    (hnd : prs0.Nodup) (hm : ∀ x, x ∈ prs0 ↔ x ∈ gp) :
    (match q with
      | some p => if prs0.contains p then prs0 else prs0 ++ [p]
      | none => prs0).Nodup ∧
    ∀ x, x ∈ (match q with
      | some p => if prs0.contains p then prs0 else prs0 ++ [p]
      | none => prs0) ↔ x ∈ gp ++ q.toList := by
  cases q with
  | none =>
    refine ⟨hnd, fun x => ?_⟩
    simp [hm x]
  | some p =>
    by_cases hc : prs0.contains p = true
    · have hpm : p ∈ prs0 := List.mem_of_elem_eq_true hc
      rw [show (match some p with
        | some p => if prs0.contains p then prs0 else prs0 ++ [p]
        | none => prs0) = if prs0.contains p then prs0 else prs0 ++ [p] from rfl, if_pos hc]
      refine ⟨hnd, fun x => ?_⟩
      simp only [Option.toList, List.mem_append, List.mem_singleton]
      constructor
      · intro hx
        exact Or.inl ((hm x).mp hx)
      · rintro (hx | rfl)
        · exact (hm x).mpr hx
        · exact hpm
    · have hc2 : prs0.contains p = false := by
        cases hx : prs0.contains p
        · rfl
        · exact absurd hx hc
      have hpnm : p ∉ prs0 := fun hmem => hc (List.elem_eq_true_of_mem hmem)
      rw [show (match some p with
        | some p => if prs0.contains p then prs0 else prs0 ++ [p]
        | none => prs0) = if prs0.contains p then prs0 else prs0 ++ [p] from rfl, if_neg (by
          rw [hc2]; exact Bool.false_ne_true)]
      constructor
      · rw [List.nodup_append]
        refine ⟨hnd, List.nodup_singleton p, fun a ha hb => ?_⟩
        rw [List.mem_singleton] at hb
        subst hb
        exact hpnm ha
      · intro x
        simp only [Option.toList, List.mem_append, List.mem_singleton, hm x]

theorem consStep_inv (m : ConsMap) (os : List Str) (line : Str) (g : Str → List Nat)
    (h : MapPrInv m g) :
    MapPrInv (consStep (m, os) line).1 (fun pk => g pk ++ factPrContrib pk line) := by
  obtain ⟨hent, hnone⟩ := h
  cases hp : parseUpdateLine line with
  | none =>
    have hmap : (consStep (m, os) line).1 = m := by simp [consStep, hp]
    constructor
    · intro pkg f t prs hl
      rw [hmap] at hl
      obtain ⟨h1, h2⟩ := hent pkg f t prs hl
      refine ⟨h1, fun p => ?_⟩
      simp [factPrContrib, hp, h2 p]
    · intro pkg hl
      rw [hmap] at hl
      simp [factPrContrib, hp, hnone pkg hl]
  | some v =>
    obtain ⟨p0, fr0, to0⟩ := v
    cases hl0 : lookupPkg m p0 with
    | some e =>
      obtain ⟨f0, t0, prs0⟩ := e
      have hstep : (consStep (m, os) line).1 =
          updatePkg m p0 (consMerge f0 t0 prs0 fr0 to0 (linePrNumber line)) := by
        simp [consStep, hp, hl0]
      obtain ⟨hnd0, hm0⟩ := hent p0 f0 t0 prs0 hl0
      obtain ⟨hndx, hmx⟩ := prs_extend_inv prs0 (linePrNumber line) (g p0) hnd0 hm0
      constructor
      · intro pkg f t prs hl
        rw [hstep] at hl
        by_cases hpk : pkg = p0
        · subst hpk
          rw [lookupPkg_update_self m pkg (f0, t0, prs0)
            (consMerge f0 t0 prs0 fr0 to0 (linePrNumber line)) hl0] at hl
          injection hl with hl2
          have hprs := congrArg (fun x : ConsEntry => x.2.2) hl2
          simp only at hprs
          have hc : factPrContrib pkg line = (linePrNumber line).toList := by
            simp [factPrContrib, hp]
          refine ⟨?_, fun x => ?_⟩
          · rw [← hprs, consMerge_prs]
            exact hndx
          · rw [← hprs, consMerge_prs]
            have hgoal := hmx x
            rw [← hc] at hgoal
            exact hgoal
        · rw [lookupPkg_update_ne m p0 pkg _ hpk] at hl
          obtain ⟨h1, h2⟩ := hent pkg f t prs hl
          have hcq : ¬ (p0 = pkg) := fun hq => hpk hq.symm
          refine ⟨h1, fun x => ?_⟩
          simp [factPrContrib, hp, hcq, h2 x]
      · intro pkg hl
        rw [hstep] at hl
        by_cases hpk : pkg = p0
        · subst hpk
          rw [lookupPkg_update_self m pkg (f0, t0, prs0)
            (consMerge f0 t0 prs0 fr0 to0 (linePrNumber line)) hl0] at hl
          cases hl
        · rw [lookupPkg_update_ne m p0 pkg _ hpk] at hl
          have hcq : ¬ (p0 = pkg) := fun hq => hpk hq.symm
          simp [factPrContrib, hp, hcq, hnone pkg hl]
    | none =>
      have hmap : (consStep (m, os) line).1 =
          m ++ [(p0, (fr0, to0, (linePrNumber line).toList))] := by
        simp [consStep, hp, hl0]
      have hgp0 : g p0 = [] := hnone p0 hl0
      constructor
      · intro pkg f t prs hl
        rw [hmap] at hl
        by_cases hpk : pkg = p0
        · subst hpk
          rw [lookupPkg_append_self m pkg (fr0, to0, (linePrNumber line).toList) hl0] at hl
          injection hl with hl2
          have hprs := congrArg (fun x : ConsEntry => x.2.2) hl2
          simp only at hprs
          refine ⟨?_, fun x => ?_⟩
          · rw [← hprs]
            cases linePrNumber line <;> simp
          · rw [← hprs]
            simp [factPrContrib, hp, hgp0]
        · rw [lookupPkg_append_ne m p0 _ pkg hpk] at hl
          obtain ⟨h1, h2⟩ := hent pkg f t prs hl
          have hcq : ¬ (p0 = pkg) := fun hq => hpk hq.symm
          refine ⟨h1, fun x => ?_⟩
          simp [factPrContrib, hp, hcq, h2 x]
      · intro pkg hl
        rw [hmap] at hl
        by_cases hpk : pkg = p0
        · subst hpk
          rw [lookupPkg_append_self m pkg (fr0, to0, (linePrNumber line).toList) hl0] at hl
          cases hl
        · rw [lookupPkg_append_ne m p0 _ pkg hpk] at hl
          have hcq : ¬ (p0 = pkg) := fun hq => hpk hq.symm
          simp [factPrContrib, hp, hcq, hnone pkg hl]

theorem consFold_inv (lines : List Str) : ∀ (m : ConsMap) (os : List Str) (g : Str → List Nat),
    MapPrInv m g →
    MapPrInv ((lines.foldl consStep (m, os)).1) (fun pk => g pk ++ factPrs lines pk) := by
  induction lines with
  | nil =>
    intro m os g h
    exact MapPrInv_congr m g _ (fun pk => by simp [factPrs]) h
  | cons l ls ih =>
    intro m os g h
    rw [List.foldl_cons]
    have h1 := consStep_inv m os l g h
    have h2 := ih (consStep (m, os) l).1 (consStep (m, os) l).2 _ h1
    rw [Prod.mk.eta] at h2
    refine MapPrInv_congr _ _ _ (fun pk => ?_) h2
    rw [show factPrs (l :: ls) pk = factPrContrib pk l ++ factPrs ls pk from rfl,
      List.append_assoc]

/-- C3: every entry of the consolidation map carries a duplicate-free PR
list holding exactly the union of the PR numbers of all parsed facts for its
package; its rendered line appears in the output and carries the suffix
built from that list sorted strictly descending (empty suffix when the list
is empty). -/
theorem claim_C3 (lines : List Str) (pkg f t : Str) (prs : List Nat)
    (h : lookupPkg (consFold lines).1 pkg = some (f, t, prs)) :
    prs.Nodup ∧
    (∀ p, p ∈ prs ↔ p ∈ factPrs lines pkg) ∧
    renderEntry (pkg, (f, t, prs)) ∈ consolidate_dependabot_updates lines ∧
    renderEntry (pkg, (f, t, prs)) =
      ("- Updates `").toList ++ pkg ++ ("` from ").toList ++ f ++ (" to ").toList ++ t ++
        (if prs = [] then []
         else ("  (").toList ++ (", ").toList.intercalate
            (((List.insertionSort (fun x y : Nat => x ≤ y) prs).reverse).map
              (fun n => '#' :: natStr n)) ++ [')']) ∧
    ((List.insertionSort (fun x y : Nat => x ≤ y) prs).reverse).Pairwise (fun a b => b < a) ∧
    ((List.insertionSort (fun x y : Nat => x ≤ y) prs).reverse).Perm prs := by
  have base : MapPrInv [] (fun _ => []) := by
    constructor
    · intro pkg f t prs hl
      cases hl
    · intro pkg hl
      rfl
  have inv := consFold_inv lines [] [] (fun _ => []) base
  obtain ⟨hnd, hmem⟩ := inv.1 pkg f t prs h
  have hmem2 : ∀ p, p ∈ prs ↔ p ∈ factPrs lines pkg := by
    intro p
    rw [hmem p]
    simp
  have hout : renderEntry (pkg, (f, t, prs)) ∈ consolidate_dependabot_updates lines := by
    rw [show consolidate_dependabot_updates lines =
      (consFold lines).1.map renderEntry ++ (consFold lines).2 from rfl]
    exact List.mem_append_left _ (List.mem_map_of_mem renderEntry (lookupPkg_mem _ _ _ h))
  have hperm := List.perm_insertionSort (fun x y : Nat => x ≤ y) prs
  have hsorted := List.sorted_insertionSort (fun x y : Nat => x ≤ y) prs
  have hnds : (List.insertionSort (fun x y : Nat => x ≤ y) prs).Nodup :=
    hperm.nodup_iff.mpr hnd
  have hstrict : (List.insertionSort (fun x y : Nat => x ≤ y) prs).Sorted
      (fun x1 x2 => x1 < x2) := List.Sorted.lt_of_le hsorted hnds
  refine ⟨hnd, hmem2, hout, rfl, ?_, (List.reverse_perm _).trans hperm⟩
  rw [List.pairwise_reverse]
  exact hstrict

/-- C3 witness: the spec's PR-set example `{100}, {100}, {200}` — the entry
line for `a` with PR suffix `(#200, #100)` is in the output. -/
theorem claim_C3_witness :
    renderEntry ((("a").toList), ((("1").toList), (("4").toList), [100, 200])) ∈
      consolidate_dependabot_updates
        [("- Updates `a` from 1 to 2 (#100)").toList,
         ("- Updates `a` from 2 to 3 (#100)").toList,
         ("- Updates `a` from 3 to 4 (#200)").toList] :=
  (claim_C3
    [("- Updates `a` from 1 to 2 (#100)").toList,
     ("- Updates `a` from 2 to 3 (#100)").toList,
     ("- Updates `a` from 3 to 4 (#200)").toList]
    (("a").toList) (("1").toList) (("4").toList) [100, 200] (by decide)).2.2.1

/-- C7 witness: the warning equation at the spec's example input. -/
theorem claim_C7_witness :
    generateLines [("- Updates `lib` from 1.0.0 to 2.0.0").toList] [] =
      (if (consolidate_dependabot_updates
            [("- Updates `lib` from 1.0.0 to 2.0.0").toList]).filterMap majorRecord = []
       then []
       else [warnHead ++ (", ").toList.intercalate
          (sortStr ((consolidate_dependabot_updates
            [("- Updates `lib` from 1.0.0 to 2.0.0").toList]).filterMap majorRecord)),
          ([] : Str)]) ++
        [depHeader, ([] : Str)] ++
        sortStr (consolidate_dependabot_updates
          [("- Updates `lib` from 1.0.0 to 2.0.0").toList]) ++
        [([] : Str)] ++ otherSection [] :=
  (claim_C7 [("- Updates `lib` from 1.0.0 to 2.0.0").toList] []).2.1 (by decide)

end GRN
